import Mathlib

/-!
Verification of the content-tracking, download-validation, publishing and
filtering logic of `enhanced_automation.py` (class `EnhancedInstagramAutomation`),
via a shallow embedding of the relevant methods as pure Lean functions.

File contents are modelled as lists of bytes (`List Nat`), strings as Lean
`String`s, the downloads directory as a list of path strings, and the two JSON
documents (`downloaded_content.json`, `posted_content.json`) as Lean structures
mirroring their schemas.
-/

namespace InstaAuto

/-! ## Generic list/string helpers mirroring the Python operations used -/

/-- Substring test over token lists, mirroring the Python `needle in hay`
membership test on `bytes` and on `str`: true iff `needle` occurs contiguously
inside `hay` (the empty needle always occurs). -/
def containsSub [BEq α] (needle : List α) : List α → Bool
  | [] => needle.isEmpty
  | c :: rest => needle.isPrefixOf (c :: rest) || containsSub needle rest

/-- Python `needle in hay` on `str` values. -/
def strContains (hay needle : String) : Bool :=
  containsSub needle.data hay.data

/-- Python `str.endswith` / the `*.ext` glob patterns used on the downloads
directory: the name ends with the given suffix. -/
def strEndsWith (s suff : String) : Bool :=
  suff.data.isSuffixOf s.data

/-- Splits a character list at its last dot: `some (stem, extension)`, or
`none` when the list has no dot.  Backs the models of `pathlib.Path.stem`,
`Path.suffix` and `Path.with_suffix` below. -/
def lastDotSplit (l : List Char) : Option (List Char × List Char) :=
  let rev := l.reverse
  let extRev := rev.takeWhile (fun c => ! (c == '.'))
  if extRev.length == rev.length then none
  else some (l.take (l.length - extRev.length - 1), extRev.reverse)

/-- Python `pathlib.Path(s).stem` for a file name: the name without its last
extension; a name whose only dot is leading (a hidden file) is its own stem. -/
def pathStem (s : String) : String :=
  match lastDotSplit s.data with
  | none => s
  | some (stem, _) => if stem.length == 0 then s else String.mk stem

/-- Python `pathlib.Path(s).suffix` for a file name: the last extension with its dot,
or the empty string when there is none (or the name is a hidden file). -/
def pathSuffix (s : String) : String :=
  match lastDotSplit s.data with
  | none => ""
  | some (stem, ext) => if stem.length == 0 then "" else String.mk ('.' :: ext)

/-- Python `Path(p).with_suffix(".json")`: the path with its last extension replaced
by `.json` (appended when the path has no extension).  The code only applies
this to paths whose last dot sits in the final component. -/
def withSuffixJson (p : String) : String :=
  pathStem p ++ ".json"

/-- Python `Path(p).name`: the final path component (the code runs on one platform
separator, `/`). -/
def fileName (p : String) : String :=
  String.mk ((p.data.reverse.takeWhile (fun c => ! (c == '/'))).reverse)

/-- Python `str.lower()` as used on file extensions. -/
def lowerStr (s : String) : String :=
  String.mk (s.data.map Char.toLower)

/-! ## Downloaded-content ledger (`track_downloaded_video`, lines 733-745)

`downloaded_content['video_ids']` is an ordered list of media-id strings.
`track_downloaded_video` appends the id when absent, then truncates to the
most recent 1000 entries (`[-1000:]`) and persists.  Persistence is a
whole-document write and is not observable in the ledger value itself. -/

/-- The method `track_downloaded_video(video_id)` acting on the `video_ids` list:
if the id is already present nothing changes; otherwise it is appended and,
when the list then exceeds 1000 entries, only the last 1000 are kept. -/
def track_downloaded_video (ids : List String) (id : String) : List String :=
  if id ∈ ids then ids
  else
    let appended := ids ++ [id]
    if 1000 < appended.length then appended.drop (appended.length - 1000)
    else appended

theorem track_of_mem {ids : List String} {id : String} (h : id ∈ ids) :
    track_downloaded_video ids id = ids := by
  simp [track_downloaded_video, h]

theorem track_of_not_mem {ids : List String} {id : String} (h : id ∉ ids) :
    track_downloaded_video ids id
      = (ids ++ [id]).drop (ids.length + 1 - 1000) := by
  unfold track_downloaded_video
  rw [if_neg h]
  have hlen : (ids ++ [id]).length = ids.length + 1 := by simp
  by_cases hc : 1000 < (ids ++ [id]).length
  · rw [if_pos hc, hlen]
  · rw [if_neg hc]
    have h0 : ids.length + 1 - 1000 = 0 := by rw [hlen] at hc; omega
    rw [h0, List.drop_zero]

theorem mem_track_self (ids : List String) (id : String) :
    id ∈ track_downloaded_video ids id := by
  by_cases h : id ∈ ids
  · rw [track_of_mem h]; exact h
  · rw [track_of_not_mem h]
    have hle : ids.length + 1 - 1000 ≤ ids.length := by omega
    rw [List.drop_append_of_le_length hle]
    exact List.mem_append_right _ (List.mem_singleton.mpr rfl)

theorem track_idem (ids : List String) (id : String) :
    track_downloaded_video (track_downloaded_video ids id) id
      = track_downloaded_video ids id :=
  track_of_mem (mem_track_self ids id)

theorem count_track_of_not_mem {ids : List String} {id : String}
    (h : id ∉ ids) :
    (track_downloaded_video ids id).count id = 1 := by
  rw [track_of_not_mem h]
  have hle : ids.length + 1 - 1000 ≤ ids.length := by omega
  rw [List.drop_append_of_le_length hle]
  have hz : ids.count id = 0 := List.count_eq_zero.mpr h
  have hsub : (ids.drop (ids.length + 1 - 1000)).count id = 0 := by
    have hle2 :=
      List.Sublist.count_le (List.drop_sublist (ids.length + 1 - 1000) ids) id
    omega
  rw [List.count_append, hsub]
  simp

/-- The fold of `track_downloaded_video` over a duplicate-free list of ids,
starting from the empty ledger, keeps exactly the most recent 1000 ids. -/
theorem foldl_track_eq_drop (l : List String) (h : l.Nodup) :
    l.foldl track_downloaded_video [] = l.drop (l.length - 1000) := by
  induction l using List.reverseRecOn with
  | nil => simp
  | append_singleton l a ih =>
    rw [List.nodup_append] at h
    obtain ⟨hl, -, hdisj⟩ := h
    have ha : a ∉ l := fun hmem => hdisj hmem (List.mem_singleton.mpr rfl)
    rw [List.foldl_append, List.foldl_cons, List.foldl_nil, ih hl]
    have hanot : a ∉ l.drop (l.length - 1000) :=
      fun hmem => ha (List.mem_of_mem_drop hmem)
    rw [track_of_not_mem hanot]
    have hlA : (l ++ [a]).length = l.length + 1 := by simp
    rw [List.length_drop]
    by_cases hlen : l.length < 1000
    · have h0 : l.length - 1000 = 0 := by omega
      rw [h0, List.drop_zero]
      have h1 : l.length - 0 + 1 - 1000 = 0 := by omega
      have h2 : (l ++ [a]).length - 1000 = 0 := by rw [hlA]; omega
      rw [h1, h2, List.drop_zero]
    · push_neg at hlen
      have h1 : l.length - (l.length - 1000) + 1 - 1000 = 1 := by omega
      rw [h1]
      have h4 : (1 : ℕ) ≤ (l.drop (l.length - 1000)).length := by
        rw [List.length_drop]; omega
      rw [List.drop_append_of_le_length h4, List.drop_drop]
      have h5 : (l ++ [a]).length - 1000 = l.length - 1000 + 1 := by
        rw [hlA]; omega
      rw [h5]
      have h6 : l.length - 1000 + 1 ≤ l.length := by omega
      rw [List.drop_append_of_le_length h6]

/-- Claim C3: starting from an empty ledger, after more than 1000
`track_downloaded_video` calls with pairwise-distinct ids, the ledger has
length exactly 1000, is exactly the most recent 1000 ids in insertion order,
and contains no id twice. -/
theorem C3_ledger_cap (ids : List String) (hnd : ids.Nodup)
    (hlen : 1000 < ids.length) :
    (ids.foldl track_downloaded_video []).length = 1000 ∧
      ids.foldl track_downloaded_video [] = ids.drop (ids.length - 1000) ∧
      (ids.foldl track_downloaded_video []).Nodup := by
  have heq := foldl_track_eq_drop ids hnd
  refine ⟨?_, heq, ?_⟩
  · rw [heq, List.length_drop]; omega
  · rw [heq]; exact hnd.sublist (List.drop_sublist _ ids)

/-- Concrete input for C3: 1001 pairwise-distinct id strings. -/
def c3Ids : List String :=
  (List.range 1001).map (fun n => String.mk (List.replicate n 'a'))

theorem c3Ids_nodup : c3Ids.Nodup := by
  refine (List.nodup_range 1001).map ?_
  intro m n h
  have h2 : List.replicate m 'a' = List.replicate n 'a' := by
    have := congrArg String.data h
    simpa using this
  have := congrArg List.length h2
  simpa using this

theorem c3Ids_length : 1000 < c3Ids.length := by
  simp [c3Ids]

/-- Witness for C3: the capped-ledger theorem applied to 1001 concrete
distinct ids. -/
theorem C3_ledger_cap_witness :
    (c3Ids.foldl track_downloaded_video []).length = 1000 ∧
      c3Ids.foldl track_downloaded_video [] = c3Ids.drop (c3Ids.length - 1000) ∧
      (c3Ids.foldl track_downloaded_video []).Nodup :=
  C3_ledger_cap c3Ids c3Ids_nodup c3Ids_length

/-- Claim C4 as stated is false: on a ledger that already holds the id twice
(a state the loader accepts verbatim from the JSON file), tracking the id is a
no-op and the resulting ledger still holds two occurrences, not one. -/
theorem C4_counterexample :
    ¬ ((track_downloaded_video ["7", "7"] "7").count "7" = 1) := by
  decide

/-- Claim C4 (amended): `track_downloaded_video` is idempotent on every ledger
state, and whenever the id occurs at most once in the initial ledger — in
particular in any state satisfying the no-duplicate invariant — the resulting
ledger contains exactly one occurrence of that id. -/
theorem C4_track_idempotent (ids : List String) (id : String)
    (h : ids.count id ≤ 1) :
    track_downloaded_video (track_downloaded_video ids id) id
        = track_downloaded_video ids id ∧
      (track_downloaded_video ids id).count id = 1 := by
  refine ⟨track_idem ids id, ?_⟩
  by_cases hmem : id ∈ ids
  · rw [track_of_mem hmem]
    have h1 : 1 ≤ ids.count id := List.one_le_count_iff.mpr hmem
    omega
  · exact count_track_of_not_mem hmem

/-- Witness for C4: the amended claim at a concrete ledger and id. -/
theorem C4_track_idempotent_witness :
    (["5", "9"] : List String).count "7" ≤ 1 ∧
      (track_downloaded_video (track_downloaded_video ["5", "9"] "7") "7"
          = track_downloaded_video ["5", "9"] "7" ∧
        (track_downloaded_video ["5", "9"] "7").count "7" = 1) :=
  ⟨by decide, C4_track_idempotent ["5", "9"] "7" (by decide)⟩

/-! ## Layered duplicate check (`is_video_already_downloaded`, lines 667-731)

The check consults, in order: the ledger (`video_ids`), file names in the
downloads/videos directory matching `*.mp4`, file names matching `*.json`,
the `file` paths of already-posted videos, and finally the stems of all files
in the directory.  Any hit in layers 2-5 back-fills the ledger through
`track_downloaded_video` (the code guards the call with a membership test,
kept here verbatim) and returns true. -/

/-- The tracker's in-memory view used by the duplicate check: the
`downloaded_content['video_ids']` ledger and the `file` fields of
`posted_content['videos']`. -/
structure TrackerState where
  video_ids : List String
  posted_files : List String
deriving DecidableEq

/-- The back-fill a layer-2..5 hit performs: `if media_pk_str not in
video_ids: track_downloaded_video(media_pk_str)`. -/
def backfill (s : TrackerState) (id : String) : TrackerState :=
  if id ∈ s.video_ids then s
  else { s with video_ids := track_downloaded_video s.video_ids id }

/-- The method `is_video_already_downloaded(media_pk)` over the tracker state and the
list of file names in `downloads/videos`: the returned flag and the updated
state.  On any error the Python returns false with the state unchanged
(fails open); the pure model has no failing operations. -/
def is_video_already_downloaded (s : TrackerState) (dirFiles : List String)
    (id : String) : Bool × TrackerState :=
  -- Layer 1: ledger membership
  if id ∈ s.video_ids then (true, s)
  -- Layer 2: any *.mp4 file name containing the id
  else if (dirFiles.filter (fun f => strEndsWith f ".mp4")).any
      (fun f => strContains f id) then
    (true, backfill s id)
  -- Layer 3: any *.json metadata file name containing the id
  else if (dirFiles.filter (fun f => strEndsWith f ".json")).any
      (fun f => strContains f id) then
    (true, backfill s id)
  -- Layer 4: any posted video whose file path contains the id
  else if s.posted_files.any (fun pf => strContains pf id) then
    (true, backfill s id)
  -- Layer 5: any file in the directory whose stem contains the id
  else if dirFiles.any (fun f => strContains (pathStem f) id) then
    (true, backfill s id)
  else (false, s)

theorem mem_backfill (s : TrackerState) (id : String) :
    id ∈ (backfill s id).video_ids := by
  unfold backfill
  by_cases h : id ∈ s.video_ids
  · simp [h]
  · simp only [h, if_false]
    exact mem_track_self s.video_ids id

/-- Claim C5: an id absent from the ledger that occurs as a substring of some
`.json` metadata file name in the downloads directory makes
`is_video_already_downloaded` return true, and afterwards the ledger contains
the id (the hit back-fills the ledger). -/
theorem C5_json_backfill (s : TrackerState) (dirFiles : List String)
    (id : String) (habs : id ∉ s.video_ids)
    (hjson : (dirFiles.filter (fun f => strEndsWith f ".json")).any
      (fun f => strContains f id) = true) :
    (is_video_already_downloaded s dirFiles id).1 = true ∧
      id ∈ (is_video_already_downloaded s dirFiles id).2.video_ids := by
  unfold is_video_already_downloaded
  rw [if_neg habs]
  by_cases h2 : (dirFiles.filter (fun f => strEndsWith f ".mp4")).any
      (fun f => strContains f id) = true
  · rw [if_pos h2]
    exact ⟨rfl, mem_backfill s id⟩
  · rw [if_neg h2, if_pos hjson]
    exact ⟨rfl, mem_backfill s id⟩

/-- Witness for C5: a concrete empty ledger and a directory holding one
metadata sidecar whose name contains the id. -/
theorem C5_json_backfill_witness :
    ("99" ∉ (⟨[], []⟩ : TrackerState).video_ids ∧
      ((["viral_reel_99_20240101.json"].filter
          (fun f => strEndsWith f ".json")).any
        (fun f => strContains f "99") = true)) ∧
      ((is_video_already_downloaded ⟨[], []⟩
          ["viral_reel_99_20240101.json"] "99").1 = true ∧
        "99" ∈ (is_video_already_downloaded ⟨[], []⟩
          ["viral_reel_99_20240101.json"] "99").2.video_ids) :=
  ⟨⟨by decide, by decide⟩,
    C5_json_backfill ⟨[], []⟩ ["viral_reel_99_20240101.json"] "99"
      (by decide) (by decide)⟩

/-! ## Download validation and retry (`download_instagram_video`, lines 299-471)

A saved file is modelled by its reported `stat().st_size` and its readable
byte content; `open`/`read(k)` yields the first `k` bytes, and the
seek-to-end `tell()` is the content length.  A download attempt either
produces a file on disk at some intermediate path (the path the platform
client wrote to, later renamed to the target name) or raises, leaving
nothing (`none`).  The file system is the list of paths that exist. -/

/-- A downloaded file as the validation code observes it. -/
structure DFile where
  statSize : Nat
  bytes : List Nat
deriving DecidableEq

/-- The byte string `ftyp` (an MP4 box signature). -/
def ftypSig : List Nat := [102, 116, 121, 112]

/-- The byte string `moov` (an MP4 box signature). -/
def moovSig : List Nat := [109, 111, 111, 118]

/-- Python `b'ftyp' in chunk or b'moov' in chunk`. -/
def hasMp4Signature (chunk : List Nat) : Bool :=
  containsSub ftypSig chunk || containsSub moovSig chunk

/-- The per-attempt validation of lines 323-366: existence is handled by the
caller (a missing file is a failed attempt); the checks here are the minimum
size (below 50 KB raises), the header (fewer than 12 readable bytes raises;
neither signature in the first 12 bytes nor in the first 1 KB raises), and
the reported-size-equals-readable-length check.  A size above 100 MB only
logs a warning (lines 339-341) and does NOT reject the file. -/
def validate_downloaded_file (f : DFile) : Bool :=
  if f.statSize < 50 * 1024 then false
  else if (f.bytes.take 12).length < 12 then false
  else if hasMp4Signature (f.bytes.take 12) then
    f.bytes.length == f.statSize
  else if hasMp4Signature (f.bytes.take 1024) then
    f.bytes.length == f.statSize
  else false

/-- The retry delay after failed attempt `attempt` (0-based):
`min(5 * (2 ** attempt), 30)` of line 419. -/
def retry_delay (attempt : Nat) : Nat := min (5 * 2 ^ attempt) 30

/-- Deletion (`unlink`) of a path (the code unlinks only existing paths; removing an
absent path leaves the file system unchanged either way). -/
def removePath (p : String) (fs : List String) : List String :=
  fs.filter (fun q => ! (q == p))

/-- Creation of a file at a path. -/
def insertPath (p : String) (fs : List String) : List String :=
  if p ∈ fs then fs else p :: fs

/-- The final-failure cleanup of lines 454-469: it regenerates the target
file name with a fresh timestamp (`t2`, which may or may not equal the
original target) and unlinks it and its `.json` sidecar if they exist. -/
def outer_cleanup (t2 : String) (fs : List String) : List String :=
  removePath (withSuffixJson t2) (removePath t2 fs)

/-- The retry loop of lines 311-425 plus the final-failure handler, over the
list of per-attempt client outcomes (`none` = `video_download` raised or
produced no file, `some (p, f)` = it wrote file `f` at path `p`).  Returns
the result of the function (the target path on success, `none` on failure),
the final file system, and the list of sleeps performed between attempts.
On success the intermediate file is renamed to the target and the metadata
sidecar is written (lines 380-443); on a failed attempt the target and the
intermediate file are unlinked (lines 397-411), and after the last attempt
the raised exception triggers `outer_cleanup`. -/
def download_loop (target t2 : String) :
    List (Option (String × DFile)) → Nat → List String →
    Option String × List String × List Nat
  | [], _, fs => (none, outer_cleanup t2 fs, [])
  | none :: rest, attempt, fs =>
    if rest.isEmpty then (none, outer_cleanup t2 (removePath target fs), [])
    else
      ((download_loop target t2 rest (attempt + 1) (removePath target fs)).1,
        (download_loop target t2 rest (attempt + 1) (removePath target fs)).2.1,
        retry_delay attempt ::
          (download_loop target t2 rest (attempt + 1)
            (removePath target fs)).2.2)
  | some (p, f) :: rest, attempt, fs =>
    if validate_downloaded_file f then
      (some target,
        insertPath (withSuffixJson target)
          (insertPath target (removePath p (insertPath p fs))),
        [])
    else if rest.isEmpty then
      (none,
        outer_cleanup t2 (removePath p (removePath target (insertPath p fs))),
        [])
    else
      ((download_loop target t2 rest (attempt + 1)
          (removePath p (removePath target (insertPath p fs)))).1,
        (download_loop target t2 rest (attempt + 1)
          (removePath p (removePath target (insertPath p fs)))).2.1,
        retry_delay attempt ::
          (download_loop target t2 rest (attempt + 1)
            (removePath p (removePath target (insertPath p fs)))).2.2)

/-- An attempt whose outcome fails validation (or produced no file). -/
def attempt_fails (o : Option (String × DFile)) : Bool :=
  match o with
  | none => true
  | some (_, f) => ! validate_downloaded_file f

/-! ### Substring-search lemmas -/

theorem isPrefixOf_append_right [BEq α] (n : List α) :
    ∀ (xs ys : List α), n.isPrefixOf xs = true →
      n.isPrefixOf (xs ++ ys) = true := by
  induction n with
  | nil => intro xs ys _; simp
  | cons a as ih =>
    intro xs ys h
    cases xs with
    | nil => simp [List.isPrefixOf] at h
    | cons b bs =>
      simp only [List.isPrefixOf, Bool.and_eq_true] at h
      simp only [List.cons_append, List.isPrefixOf, Bool.and_eq_true]
      exact ⟨h.1, ih bs ys h.2⟩

theorem isPrefixOf_self_append [BEq α] [LawfulBEq α] (n l : List α) :
    n.isPrefixOf (n ++ l) = true := by
  induction n with
  | nil => simp
  | cons a as ih => simp [List.isPrefixOf, ih]

theorem containsSub_nil_needle [BEq α] (hay : List α) :
    containsSub ([] : List α) hay = true := by
  cases hay with
  | nil => rfl
  | cons c rest => simp [containsSub, List.isPrefixOf]

theorem containsSub_append_right [BEq α] (needle : List α) :
    ∀ (xs ys : List α), containsSub needle xs = true →
      containsSub needle (xs ++ ys) = true := by
  intro xs
  induction xs with
  | nil =>
    intro ys h
    simp only [containsSub, List.isEmpty_iff] at h
    subst h
    simpa using containsSub_nil_needle ys
  | cons c rest ih =>
    intro ys h
    simp only [containsSub, Bool.or_eq_true] at h
    rcases h with h | h
    · have := isPrefixOf_append_right needle (c :: rest) ys h
      simp only [List.cons_append] at this ⊢
      simp [containsSub, this]
    · have := ih ys h
      simp only [List.cons_append]
      simp [containsSub, this]

theorem containsSub_self_append [BEq α] [LawfulBEq α] (n l : List α) :
    containsSub n (n ++ l) = true := by
  cases n with
  | nil => exact containsSub_nil_needle l
  | cons a as =>
    have h := isPrefixOf_self_append (a :: as) l
    simp only [List.cons_append] at h ⊢
    simp [containsSub, h]

theorem containsSub_take_mono [BEq α] {n l : List α} {k m : Nat}
    (hkm : k ≤ m) (h : containsSub n (l.take k) = true) :
    containsSub n (l.take m) = true := by
  have hmk : m = k + (m - k) := by omega
  have hsplit : l.take m = l.take k ++ (l.drop k).take (m - k) := by
    nth_rewrite 1 [hmk]
    rw [List.take_add]
  rw [hsplit]
  exact containsSub_append_right n _ _ h

theorem hasMp4Signature_take_mono {l : List Nat} {k m : Nat} (hkm : k ≤ m)
    (h : hasMp4Signature (l.take k) = true) :
    hasMp4Signature (l.take m) = true := by
  unfold hasMp4Signature at h ⊢
  rcases Bool.or_eq_true_iff.mp h with h1 | h1
  · exact Bool.or_eq_true_iff.mpr (Or.inl (containsSub_take_mono hkm h1))
  · exact Bool.or_eq_true_iff.mpr (Or.inr (containsSub_take_mono hkm h1))

/-- The validation accepts exactly the files meeting the minimum size, the
12-byte readable header, a signature within the first 1 KB, and the
size-match check — with no maximum-size requirement. -/
theorem validate_eq_true_iff (f : DFile) :
    validate_downloaded_file f = true ↔
      (50 * 1024 ≤ f.statSize ∧ 12 ≤ f.bytes.length ∧
        hasMp4Signature (f.bytes.take 1024) = true ∧
        f.bytes.length = f.statSize) := by
  unfold validate_downloaded_file
  constructor
  · intro h
    split_ifs at h with h1 h2 h3 h4
    · refine ⟨by omega, ?_, ?_, eq_of_beq h⟩
      · rw [List.length_take] at h2; omega
      · exact hasMp4Signature_take_mono (by omega) h3
    · refine ⟨by omega, ?_, h4, eq_of_beq h⟩
      rw [List.length_take] at h2; omega
  · rintro ⟨hs, hl, hsig, hlen⟩
    have h1 : ¬ f.statSize < 50 * 1024 := by omega
    have h2 : ¬ (f.bytes.take 12).length < 12 := by
      rw [List.length_take]; omega
    rw [if_neg h1, if_neg h2]
    by_cases h3 : hasMp4Signature (f.bytes.take 12) = true
    · rw [if_pos h3]; simp [hlen]
    · rw [if_neg h3, if_pos hsig]; simp [hlen]

/-! ### Behaviour of the retry loop -/

theorem mem_removePath {q p : String} {fs : List String} :
    q ∈ removePath p fs ↔ q ∈ fs ∧ q ≠ p := by
  simp [removePath]

theorem not_mem_removePath_self (p : String) (fs : List String) :
    p ∉ removePath p fs := fun h => (mem_removePath.mp h).2 rfl

theorem not_mem_removePath {q p : String} {fs : List String}
    (h : q ∉ fs) : q ∉ removePath p fs :=
  fun hmem => h (mem_removePath.mp hmem).1

theorem mem_insertPath {q p : String} {fs : List String} :
    q ∈ insertPath p fs ↔ q = p ∨ q ∈ fs := by
  unfold insertPath
  by_cases h : p ∈ fs
  · rw [if_pos h]
    constructor
    · exact Or.inr
    · rintro (rfl | hq)
      · exact h
      · exact hq
  · rw [if_neg h]
    simp [List.mem_cons]

theorem mem_outer_cleanup {q t2 : String} {fs : List String}
    (h : q ∈ outer_cleanup t2 fs) : q ∈ fs :=
  (mem_removePath.mp (mem_removePath.mp h).1).1

/-- A successful return of the retry loop comes from an attempt that produced
a file passing validation, and the returned path is the target path. -/
theorem download_loop_some (target t2 : String) :
    ∀ (outs : List (Option (String × DFile))) (att : Nat) (fs : List String)
      (q : String),
      (download_loop target t2 outs att fs).1 = some q →
      q = target ∧ ∃ p f, some (p, f) ∈ outs ∧
        validate_downloaded_file f = true := by
  intro outs
  induction outs with
  | nil =>
    intro att fs q h
    simp [download_loop] at h
  | cons o rest ih =>
    intro att fs q h
    cases o with
    | none =>
      simp only [download_loop] at h
      by_cases hr : rest.isEmpty
      · rw [if_pos hr] at h; simp at h
      · rw [if_neg hr] at h
        obtain ⟨hq, p, f, hmem, hv⟩ := ih (att + 1) (removePath target fs) q h
        exact ⟨hq, p, f, List.mem_cons_of_mem _ hmem, hv⟩
    | some pf =>
      obtain ⟨p0, f0⟩ := pf
      simp only [download_loop] at h
      by_cases hv : validate_downloaded_file f0 = true
      · rw [if_pos hv] at h
        simp only at h
        exact ⟨(Option.some.injEq _ _ ▸ h).symm, p0, f0,
          List.mem_cons_self _ _, hv⟩
      · rw [if_neg hv] at h
        by_cases hr : rest.isEmpty
        · rw [if_pos hr] at h; simp at h
        · rw [if_neg hr] at h
          obtain ⟨hq, p, f, hmem, hv2⟩ := ih (att + 1) _ q h
          exact ⟨hq, p, f, List.mem_cons_of_mem _ hmem, hv2⟩

/-- The sleeps performed by the retry loop: one `retry_delay` per failed
non-final attempt, in attempt order. -/
def delaysFrom : Nat → Nat → List Nat
  | _, 0 => []
  | att, m + 1 => retry_delay att :: delaysFrom (att + 1) m

theorem download_loop_sleeps (target t2 : String) :
    ∀ (outs : List (Option (String × DFile))) (att : Nat) (fs : List String),
      ∃ m, (m = 0 ∨ m + 1 ≤ outs.length) ∧
        (download_loop target t2 outs att fs).2.2 = delaysFrom att m := by
  intro outs
  induction outs with
  | nil =>
    intro att fs
    exact ⟨0, Or.inl rfl, rfl⟩
  | cons o rest ih =>
    intro att fs
    cases o with
    | none =>
      by_cases hr : rest.isEmpty
      · exact ⟨0, Or.inl rfl, by simp [download_loop, hr, delaysFrom]⟩
      · obtain ⟨m, hm, hs⟩ := ih (att + 1) (removePath target fs)
        refine ⟨m + 1, Or.inr ?_, ?_⟩
        · have : rest ≠ [] := by
            intro hnil; rw [hnil] at hr; exact hr rfl
          have : 1 ≤ rest.length := List.length_pos.mpr this
          rcases hm with rfl | hm2
          · simp [List.length_cons]; omega
          · simp [List.length_cons]; omega
        · simp only [download_loop]
          rw [if_neg hr]
          simp only [delaysFrom]
          rw [hs]
    | some pf =>
      obtain ⟨p0, f0⟩ := pf
      by_cases hv : validate_downloaded_file f0 = true
      · exact ⟨0, Or.inl rfl, by simp [download_loop, hv, delaysFrom]⟩
      · by_cases hr : rest.isEmpty
        · exact ⟨0, Or.inl rfl, by simp [download_loop, hv, hr, delaysFrom]⟩
        · obtain ⟨m, hm, hs⟩ :=
            ih (att + 1) (removePath p0 (removePath target (insertPath p0 fs)))
          refine ⟨m + 1, Or.inr ?_, ?_⟩
          · have : rest ≠ [] := by
              intro hnil; rw [hnil] at hr; exact hr rfl
            have : 1 ≤ rest.length := List.length_pos.mpr this
            rcases hm with rfl | hm2
            · simp [List.length_cons]; omega
            · simp [List.length_cons]; omega
          · simp only [download_loop]
            rw [if_neg hv, if_neg hr]
            simp only [delaysFrom]
            rw [hs]

/-- Paths that are absent and are no attempt's intermediate file stay absent
through an all-failing run (no step creates them). -/
theorem download_loop_not_mem (target t2 : String) :
    ∀ (outs : List (Option (String × DFile))) (att : Nat) (fs : List String)
      (q : String),
      outs.all attempt_fails = true →
      q ∉ fs →
      (∀ f, some (q, f) ∉ outs) →
      q ∉ (download_loop target t2 outs att fs).2.1 := by
  intro outs
  induction outs with
  | nil =>
    intro att fs q _ hq _
    simp only [download_loop]
    exact fun h => hq (mem_outer_cleanup h)
  | cons o rest ih =>
    intro att fs q hall hq hno
    have hallr : rest.all attempt_fails = true := by
      simp only [List.all_cons, Bool.and_eq_true] at hall
      exact hall.2
    have hnor : ∀ f, some (q, f) ∉ rest :=
      fun f hmem => hno f (List.mem_cons_of_mem _ hmem)
    cases o with
    | none =>
      have hq2 : q ∉ removePath target fs := not_mem_removePath hq
      simp only [download_loop]
      by_cases hr : rest.isEmpty
      · rw [if_pos hr]
        exact fun h => hq2 (mem_outer_cleanup h)
      · rw [if_neg hr]
        exact ih (att + 1) _ q hallr hq2 hnor
    | some pf =>
      obtain ⟨p0, f0⟩ := pf
      have hv : validate_downloaded_file f0 = false := by
        simp only [List.all_cons, Bool.and_eq_true, attempt_fails] at hall
        simpa using hall.1
      have hqp : q ≠ p0 := by
        intro heq
        exact hno f0 (by rw [heq]; exact List.mem_cons_self _ _)
      have hq1 : q ∉ insertPath p0 fs := by
        rw [mem_insertPath]
        rintro (rfl | hmem)
        · exact hqp rfl
        · exact hq hmem
      have hq2 : q ∉ removePath p0 (removePath target (insertPath p0 fs)) :=
        not_mem_removePath (not_mem_removePath hq1)
      simp only [download_loop]
      rw [if_neg (by simp [hv] : ¬ validate_downloaded_file f0 = true)]
      by_cases hr : rest.isEmpty
      · rw [if_pos hr]
        exact fun h => hq2 (mem_outer_cleanup h)
      · rw [if_neg hr]
        exact ih (att + 1) _ q hallr hq2 hnor

/-- When every attempt fails validation the loop returns no path, and neither
the target file nor any attempt's intermediate file remains on disk. -/
theorem download_loop_all_fail (target t2 : String) :
    ∀ (outs : List (Option (String × DFile))) (att : Nat) (fs : List String),
      outs ≠ [] → outs.all attempt_fails = true →
      (download_loop target t2 outs att fs).1 = none ∧
      target ∉ (download_loop target t2 outs att fs).2.1 ∧
      ∀ p f, some (p, f) ∈ outs →
        p ∉ (download_loop target t2 outs att fs).2.1 := by
  intro outs
  induction outs with
  | nil => intro att fs hne; exact absurd rfl hne
  | cons o rest ih =>
    intro att fs _ hall
    have hallr : rest.all attempt_fails = true := by
      simp only [List.all_cons, Bool.and_eq_true] at hall
      exact hall.2
    cases o with
    | none =>
      by_cases hr : rest.isEmpty
      · have hrnil : rest = [] := by
          cases rest with
          | nil => rfl
          | cons x xs => simp [List.isEmpty] at hr
        subst hrnil
        simp only [download_loop, if_pos]
        refine ⟨rfl, ?_, ?_⟩
        · exact fun h =>
            not_mem_removePath_self target fs (mem_outer_cleanup h)
        · intro p f hmem
          simp at hmem
      · have hrne : rest ≠ [] := by
          intro hnil; rw [hnil] at hr; exact hr rfl
        obtain ⟨h1, h2, h3⟩ := ih (att + 1) (removePath target fs) hrne hallr
        simp only [download_loop]
        rw [if_neg hr]
        refine ⟨h1, h2, ?_⟩
        intro p f hmem
        rcases List.mem_cons.mp hmem with heq | hmem2
        · exact absurd heq (by simp)
        · exact h3 p f hmem2
    | some pf =>
      obtain ⟨p0, f0⟩ := pf
      have hv : validate_downloaded_file f0 = false := by
        simp only [List.all_cons, Bool.and_eq_true, attempt_fails] at hall
        simpa using hall.1
      have hvne : ¬ validate_downloaded_file f0 = true := by simp [hv]
      by_cases hr : rest.isEmpty
      · have hrnil : rest = [] := by
          cases rest with
          | nil => rfl
          | cons x xs => simp [List.isEmpty] at hr
        subst hrnil
        simp only [download_loop]
        rw [if_neg hvne, if_pos hr]
        have htgt : target ∉
            removePath p0 (removePath target (insertPath p0 fs)) :=
          not_mem_removePath (not_mem_removePath_self target _)
        refine ⟨rfl, fun h => htgt (mem_outer_cleanup h), ?_⟩
        intro p f hmem
        have : some (p, f) = some (p0, f0) := by
          simpa using hmem
        have hpp : p = p0 := by
          injection this with h1
          exact congrArg Prod.fst h1
        subst hpp
        exact fun h =>
          not_mem_removePath_self p _ (mem_outer_cleanup h)
      · have hrne : rest ≠ [] := by
          intro hnil; rw [hnil] at hr; exact hr rfl
        obtain ⟨h1, h2, h3⟩ :=
          ih (att + 1) (removePath p0 (removePath target (insertPath p0 fs)))
            hrne hallr
        simp only [download_loop]
        rw [if_neg hvne, if_neg hr]
        refine ⟨h1, h2, ?_⟩
        intro p f hmem
        rcases List.mem_cons.mp hmem with heq | hmem2
        · have hpp : p = p0 := by
            injection heq with h1
            exact congrArg Prod.fst h1
          subst hpp
          by_cases hex : ∃ f2, some (p, f2) ∈ rest
          · obtain ⟨f2, hf2⟩ := hex
            exact h3 p f2 hf2
          · push_neg at hex
            exact download_loop_not_mem target t2 rest (att + 1) _ p hallr
              (not_mem_removePath_self p _) hex
        · exact h3 p f hmem2

/-! ### Claims C1 and C2 -/

/-- Claim C1 (amended): a download attempt is accepted only if the saved file
exists (an attempt that produced no file cannot be accepted), its size is at
least 50 KB, an MP4 `ftyp`/`moov` signature appears in its first 1 KB of
readable bytes, and its reported size equals its readable length; a size
above 100 MB is NOT a rejection condition — the code only logs a warning.
A file violating a checked condition is rejected and retried, with up to 3
attempts and inter-attempt delays `min(5 * 2 ** a, 30)` — 5 s, then 10 s;
the 20 s value of the schedule is never slept because the third failure
aborts instead of retrying. -/
theorem C1_download_validation (target t2 : String)
    (outs : List (Option (String × DFile))) (fs : List String)
    (hlen : outs.length ≤ 3) :
    (∀ q, (download_loop target t2 outs 0 fs).1 = some q →
        q = target ∧ ∃ p f, some (p, f) ∈ outs ∧
          validate_downloaded_file f = true) ∧
      (∀ f : DFile, validate_downloaded_file f = true ↔
        (50 * 1024 ≤ f.statSize ∧ 12 ≤ f.bytes.length ∧
          hasMp4Signature (f.bytes.take 1024) = true ∧
          f.bytes.length = f.statSize)) ∧
      ((download_loop target t2 outs 0 fs).2.2 = [] ∨
        (download_loop target t2 outs 0 fs).2.2 = [5] ∨
        (download_loop target t2 outs 0 fs).2.2 = [5, 10]) ∧
      retry_delay 0 = 5 ∧ retry_delay 1 = 10 ∧ retry_delay 2 = 20 ∧
      (∀ a, retry_delay a ≤ 30) := by
  refine ⟨fun q h => download_loop_some target t2 outs 0 fs q h,
    fun f => validate_eq_true_iff f, ?_, by decide, by decide, by decide,
    fun a => min_le_right _ _⟩
  obtain ⟨m, hm, hs⟩ := download_loop_sleeps target t2 outs 0 fs
  have hm2 : m ≤ 2 := by
    rcases hm with rfl | hm
    · omega
    · omega
  rw [hs]
  interval_cases m
  · exact Or.inl (by decide)
  · exact Or.inr (Or.inl (by decide))
  · exact Or.inr (Or.inr (by decide))

/-- The oversized file of the C1 counterexample: 200 MB reported and
readable, with an `ftyp` signature at the start. -/
def bigFile : DFile :=
  ⟨209715200, ftypSig ++ List.replicate 209715196 0⟩

theorem bigFile_bytes_length : bigFile.bytes.length = 209715200 := by
  show (ftypSig ++ List.replicate 209715196 (0 : Nat)).length = 209715200
  rw [List.length_append, List.length_replicate]
  rfl

theorem bigFile_validate : validate_downloaded_file bigFile = true := by
  rw [validate_eq_true_iff]
  refine ⟨?_, by rw [bigFile_bytes_length]; norm_num, ?_,
    by rw [bigFile_bytes_length]; rfl⟩
  · show (50 * 1024 : Nat) ≤ 209715200
    norm_num
  have h1 : List.take 1024 ftypSig = ftypSig :=
    List.take_of_length_le (by norm_num [ftypSig])
  have hmin : min (1024 - ftypSig.length) 209715196 = 1020 := by
    show min (1024 - 4) 209715196 = 1020
    decide
  have htake : bigFile.bytes.take 1024
      = ftypSig ++ List.replicate 1020 (0 : Nat) := by
    show (ftypSig ++ List.replicate 209715196 (0 : Nat)).take 1024 = _
    rw [List.take_append_eq_append_take, h1, List.take_replicate, hmin]
  rw [htake]
  unfold hasMp4Signature
  rw [containsSub_self_append]
  rfl

/-- Claim C1 as stated is false: a 200 MB file — far above the claimed
100 MB upper bound — passes validation and is accepted on the first attempt,
because the code treats an oversized file as a warning, not a rejection. -/
theorem C1_counterexample :
    100 * 1024 * 1024 < bigFile.statSize ∧
      validate_downloaded_file bigFile = true ∧
      (download_loop "viral_reel_1.mp4" "viral_reel_1.mp4"
          [some ("tmp.mp4", bigFile)] 0 []).1 = some "viral_reel_1.mp4" := by
  refine ⟨?_, bigFile_validate, ?_⟩
  · show (100 * 1024 * 1024 : Nat) < 209715200
    norm_num
  simp only [download_loop]
  rw [if_pos bigFile_validate]

/-- Witness for C1: the amended theorem applied to a concrete three-attempt
run. -/
theorem C1_download_validation_witness :
    (([none, none, none] : List (Option (String × DFile))).length ≤ 3) ∧
      ((download_loop "v.mp4" "v.mp4" [none, none, none] 0 []).2.2 = [] ∨
        (download_loop "v.mp4" "v.mp4" [none, none, none] 0 []).2.2 = [5] ∨
        (download_loop "v.mp4" "v.mp4" [none, none, none] 0 []).2.2
          = [5, 10]) :=
  ⟨by decide,
    (C1_download_validation "v.mp4" "v.mp4" [none, none, none] []
      (by decide)).2.2.1⟩

/-- One step of the per-hashtag candidate loop (lines 222-259) for one
candidate id, threading the tracker state and the downloads-directory
contents, with `success c` the outcome of `download_instagram_video` for
that candidate: the duplicate double-check of line 238 runs first (its
back-fill kept); on a miss the download is invoked — on success the renamed
video and its sidecar appear in the directory and the id is tracked (lines
379-445, timestamp omitted from the modelled name), on failure nothing is
tracked and no file remains (the all-fail behaviour proven of
`download_loop`).  Returns the new state and the ids for which a download
was invoked. -/
def processCandidate (success : String → Bool)
    (st : TrackerState × List String) (c : String) :
    (TrackerState × List String) × List String :=
  if (is_video_already_downloaded st.1 st.2 c).1 then
    (((is_video_already_downloaded st.1 st.2 c).2, st.2), [])
  else if success c then
    (({ (is_video_already_downloaded st.1 st.2 c).2 with
        video_ids := track_downloaded_video
          (is_video_already_downloaded st.1 st.2 c).2.video_ids c },
      ("viral_reel_" ++ c ++ ".mp4") ::
        ("viral_reel_" ++ c ++ ".json") :: st.2), [c])
  else
    (((is_video_already_downloaded st.1 st.2 c).2, st.2), [c])

/-- Sequential processing of a hashtag's candidate slice. -/
def processCandidates (success : String → Bool) :
    List String → TrackerState × List String →
    (TrackerState × List String) × List String
  | [], st => (st, [])
  | c :: cs, st =>
    ((processCandidates success cs (processCandidate success st c).1).1,
      (processCandidate success st c).2 ++
        (processCandidates success cs (processCandidate success st c).1).2)

/-- The download invocations of one fetch call
(`fetch_viral_cat_reels_optimized`, lines 147-263): for each sampled hashtag
in turn, the top-2 slice of its scored candidates is processed.  The
max-downloads and time-budget early exits (lines 224-233) only cut the loop
short, removing invocations, and are omitted. -/
def fetch_download_calls (success : String → Bool) :
    List (List String) → TrackerState × List String → List String
  | [], _ => []
  | batch :: rest, st =>
    (processCandidates success (batch.take 2) st).2 ++
      fetch_download_calls success rest
        (processCandidates success (batch.take 2) st).1

theorem processCandidate_calls (success : String → Bool)
    (st : TrackerState × List String) (c : String) :
    (processCandidate success st c).2 = [] ∨
      (processCandidate success st c).2 = [c] := by
  unfold processCandidate
  by_cases h1 : (is_video_already_downloaded st.1 st.2 c).1 = true
  · rw [if_pos h1]
    exact Or.inl rfl
  · rw [if_neg h1]
    by_cases h2 : success c = true
    · rw [if_pos h2]
      exact Or.inr rfl
    · rw [if_neg h2]
      exact Or.inr rfl

/-- Each candidate triggers at most as many download invocations as it has
occurrences in the processed slice. -/
theorem processCandidates_count_le (success : String → Bool) :
    ∀ (cs : List String) (st : TrackerState × List String) (c : String),
      ((processCandidates success cs st).2.count c ≤ cs.count c) := by
  intro cs
  induction cs with
  | nil =>
    intro st c
    simp [processCandidates]
  | cons c0 rest ih =>
    intro st c
    simp only [processCandidates]
    rw [List.count_append]
    have h2 := ih (processCandidate success st c0).1 c
    have hc0 : (processCandidate success st c0).2.count c
        ≤ List.count c [c0] := by
      rcases processCandidate_calls success st c0 with h | h
      · rw [h]
        simp
      · rw [h]
    have hcons : List.count c (c0 :: rest)
        = List.count c [c0] + List.count c rest := by
      rw [← List.count_append]
      rfl
    omega

/-- Claim C2 as stated is false on its no-retry-within-the-fetch-call part:
a candidate that fails all 3 attempts is never tracked (line 445 runs only
on success) and its partial files are deleted — the very cleanup the claim
requires — so when a later hashtag of the same fetch call returns the same
media, every layer of the duplicate check misses and the download is
invoked a second time for the same candidate within that call. -/
theorem C2_counterexample :
    (download_loop "viral_reel_1.mp4" "viral_reel_1.mp4"
        [none, none, none] 0 []).1 = none ∧
      (fetch_download_calls (fun _ => false) [["1"], ["1"]]
        (⟨⟨[], []⟩, []⟩ : TrackerState × List String)).count "1" = 2 := by
  decide

/-- Claim C2 (amended): when all 3 attempts fail validation the download
returns no path and leaves neither the target video file nor any attempt's
intermediate file in the directory; within the hashtag pass that produced
it, the candidate's download is invoked at most once (no per-candidate
retry wrapper) — but a later hashtag of the same fetch call may resurface
and re-download the candidate, since the failed download is neither tracked
nor leaves files for the duplicate check to find. -/
theorem C2_failed_download_clean (target t2 : String)
    (outs : List (Option (String × DFile))) (fs : List String)
    (success : String → Bool) (st : TrackerState × List String)
    (batch : List String) (c : String)
    (hlen : outs.length = 3) (hfail : outs.all attempt_fails = true)
    (hnd : batch.Nodup) :
    (download_loop target t2 outs 0 fs).1 = none ∧
      target ∉ (download_loop target t2 outs 0 fs).2.1 ∧
      (∀ p f, some (p, f) ∈ outs →
        p ∉ (download_loop target t2 outs 0 fs).2.1) ∧
      (processCandidates success (batch.take 2) st).2.count c ≤ 1 := by
  have hne : outs ≠ [] := by
    intro h
    rw [h] at hlen
    simp at hlen
  obtain ⟨h1, h2, h3⟩ := download_loop_all_fail target t2 outs 0 fs hne hfail
  refine ⟨h1, h2, h3, ?_⟩
  have ht : (batch.take 2).Nodup := hnd.sublist (List.take_sublist 2 batch)
  have h4 : (batch.take 2).count c ≤ 1 :=
    List.nodup_iff_count_le_one.mp ht c
  have h5 := processCandidates_count_le success (batch.take 2) st c
  omega

/-- A file failing validation (too small), for the C2 witness. -/
def badFile : DFile := ⟨10, [1, 2, 3]⟩

/-- Witness for C2: a concrete run of three failing attempts over an empty
directory, plus a concrete hashtag batch. -/
theorem C2_failed_download_clean_witness :
    (([none, some ("tmp.mp4", badFile), none]
        : List (Option (String × DFile))).length = 3 ∧
      ([none, some ("tmp.mp4", badFile), none]
        : List (Option (String × DFile))).all attempt_fails = true ∧
      (["1", "2", "3"] : List String).Nodup) ∧
      ((download_loop "v.mp4" "v.mp4"
          [none, some ("tmp.mp4", badFile), none] 0 []).1 = none ∧
        "v.mp4" ∉ (download_loop "v.mp4" "v.mp4"
          [none, some ("tmp.mp4", badFile), none] 0 []).2.1 ∧
        (∀ p f, some (p, f) ∈ ([none, some ("tmp.mp4", badFile), none]
            : List (Option (String × DFile))) →
          p ∉ (download_loop "v.mp4" "v.mp4"
            [none, some ("tmp.mp4", badFile), none] 0 []).2.1) ∧
        (processCandidates (fun _ => false)
          ((["1", "2", "3"] : List String).take 2)
          (⟨⟨[], []⟩, []⟩ : TrackerState × List String)).2.count "1" ≤ 1) :=
  ⟨⟨by decide, by decide, by decide⟩,
    C2_failed_download_clean "v.mp4" "v.mp4"
      [none, some ("tmp.mp4", badFile), none] [] (fun _ => false)
      ⟨⟨[], []⟩, []⟩ ["1", "2", "3"] "1"
      (by decide) (by decide) (by decide)⟩

/-! ## Publishing (`post_content`, lines 540-613)

`post_content` in testing mode only logs and returns true.  In live mode it
logs in when no session exists, dispatches by file extension (reel upload
with a generic-video fallback for video extensions, photo upload otherwise),
and on success appends one record to `posted_content` and persists it.  The
external client's behaviour during the call is summarised by `UploadEnv`;
the observable actions are traced as `PostEffect`s. -/

/-- One record of `posted_content.json`: the fields appended at lines
601-606. -/
structure PostedRecord where
  file : String
  caption : String
  posted_at : String
  source : String
deriving DecidableEq

/-- The two ordered sequences of `posted_content.json`, keyed by media
kind. -/
structure PostedContent where
  images : List PostedRecord
  videos : List PostedRecord
deriving DecidableEq

/-- Externally observable actions of `post_content`. -/
inductive PostEffect
  | login
  | clipUpload
  | videoUpload
  | photoUpload
  | savePosted
deriving DecidableEq

/-- Outcomes of the external operations during one `post_content` call:
whether a session already exists (`client.user_id`), whether `login`,
`clip_upload`, `video_upload` and `photo_upload` would succeed, whether the
2-minute upload timeout has elapsed when the reel upload fails (line 574),
and the timestamp `datetime.now().isoformat()` used in the record. -/
structure UploadEnv where
  logged_in : Bool
  login_ok : Bool
  clip_ok : Bool
  clip_timeout : Bool
  video_ok : Bool
  photo_ok : Bool
  now : String
deriving DecidableEq

/-- The extensions dispatched as reel/video uploads (line 565). -/
def videoExts : List String := [".mp4", ".mov", ".avi", ".mkv", ".webm"]

/-- The extensions classified as images for the record (lines 599-600). -/
def imageExts : List String := [".jpg", ".jpeg", ".png", ".gif"]

/-- The `content_type` classification of lines 599-600: `images` iff the lowered suffix is a
known image extension, else `videos`. -/
def mediaKindIsImage (path : String) : Bool :=
  imageExts.contains (lowerStr (pathSuffix path))

/-- Appends the posted record to the sequence of the file's media kind. -/
def appendPosted (s : PostedContent) (path : String) (r : PostedRecord) :
    PostedContent :=
  if mediaKindIsImage path then { s with images := s.images ++ [r] }
  else { s with videos := s.videos ++ [r] }

/-- The method `post_content(file_path, caption)`: the returned flag, the new
posted-content state, and the effect trace. -/
def post_content (testing_mode : Bool) (env : UploadEnv)
    (s : PostedContent) (file_path caption : String) :
    Bool × PostedContent × List PostEffect :=
  if testing_mode then (true, s, [])
  else if !env.logged_in && !env.login_ok then
    (false, s, [PostEffect.login])
  else
    let pre : List PostEffect :=
      if env.logged_in then [] else [PostEffect.login]
    let r : PostedRecord :=
      ⟨file_path, caption, env.now, "enhanced_automation"⟩
    if videoExts.contains (lowerStr (pathSuffix file_path)) then
      if env.clip_ok then
        (true, appendPosted s file_path r,
          pre ++ [PostEffect.clipUpload, PostEffect.savePosted])
      else if env.clip_timeout then
        (false, s, pre ++ [PostEffect.clipUpload])
      else if env.video_ok then
        (true, appendPosted s file_path r,
          pre ++ [PostEffect.clipUpload, PostEffect.videoUpload,
            PostEffect.savePosted])
      else
        (false, s, pre ++ [PostEffect.clipUpload, PostEffect.videoUpload])
    else
      if env.photo_ok then
        (true, appendPosted s file_path r,
          pre ++ [PostEffect.photoUpload, PostEffect.savePosted])
      else
        (false, s, pre ++ [PostEffect.photoUpload])

/-- Claim C6: in testing (dry-run) mode `post_content` returns true for every
file path and caption, performs no network action (no login, no upload) and
no persistence, and leaves the posted-content state unchanged — side-effect
equivalent to a no-op. -/
theorem C6_dry_run_noop (env : UploadEnv) (s : PostedContent)
    (file_path caption : String) :
    post_content true env s file_path caption = (true, s, []) := rfl

/-- Whether the live-mode upload (login when needed, then reel upload with
the timeout check and generic-video fallback, or photo upload) succeeds. -/
def upload_succeeds (env : UploadEnv) (path : String) : Bool :=
  (env.logged_in || env.login_ok) &&
    (if videoExts.contains (lowerStr (pathSuffix path)) then
      env.clip_ok || (!env.clip_timeout && env.video_ok)
    else env.photo_ok)

/-- Claim C9: in live mode `post_content` returns true exactly when the
upload succeeds; on failure (login failure, reel-then-video fallback both
failing, timeout, photo failure) the posted-content state is unchanged; on
success exactly one record {file, caption, posted_at, source} is appended to
the sequence of the file's media kind, and the document is persisted — so a
record is appended iff the upload succeeded. -/
theorem C9_live_post (env : UploadEnv) (s : PostedContent)
    (file_path caption : String) :
    ((post_content false env s file_path caption).1 = true ↔
        upload_succeeds env file_path = true) ∧
      ((post_content false env s file_path caption).1 = false →
        (post_content false env s file_path caption).2.1 = s) ∧
      ((post_content false env s file_path caption).1 = true →
        (post_content false env s file_path caption).2.1
            = appendPosted s file_path
              ⟨file_path, caption, env.now, "enhanced_automation"⟩ ∧
          PostEffect.savePosted ∈
            (post_content false env s file_path caption).2.2) := by
  obtain ⟨li, lo, co, ct, vo, po, now⟩ := env
  by_cases hv : lowerStr (pathSuffix file_path) ∈ videoExts <;>
    cases li <;> cases lo <;> cases co <;> cases ct <;> cases vo <;>
    cases po <;>
    simp [post_content, upload_succeeds, hv]

/-! ## Rate-limit backoff (`enhanced_rate_limit_handler`, lines 910-946) -/

/-- An observable step of the rate-limit handler: a sleep of some seconds,
or the authentication refresh. -/
inductive RLEvent
  | sleep (secs : Nat)
  | relogin
deriving DecidableEq

/-- The sleep schedule of lines 923-932 for a given total delay: chunked into
30 s pieces plus the sub-30 s remainder only when the delay exceeds 60 s,
else one single sleep of the whole delay. -/
def rate_limit_sleeps (delay : Nat) : List Nat :=
  if 60 < delay then List.replicate (delay / 30) 30 ++ [delay % 30]
  else [delay]

/-- The method `enhanced_rate_limit_handler(hashtag, attempt, max_attempts)` for
`attempt ≥ 1` (the Python computes a fractional delay for attempt 0, which no
caller passes; `max_attempts` and the hashtag appear only in log output).
Sleeps per the schedule, then from the second attempt on refreshes
authentication; the only false return is a failed refresh (or an internal
error, absent from the pure model). -/
def enhanced_rate_limit_handler (login_ok : Bool) (attempt : Nat) :
    Bool × List RLEvent :=
  let delay := 30 * 2 ^ (attempt - 1)
  let sleeps := (rate_limit_sleeps delay).map RLEvent.sleep
  if 2 ≤ attempt then (login_ok, sleeps ++ [RLEvent.relogin])
  else (true, sleeps)

/-- Total seconds slept in an event trace. -/
def sleepTotal : List RLEvent → Nat
  | [] => 0
  | RLEvent.sleep n :: rest => n + sleepTotal rest
  | RLEvent.relogin :: rest => sleepTotal rest

theorem sleepTotal_map_sleep (l : List Nat) :
    sleepTotal (l.map RLEvent.sleep) = l.sum := by
  induction l with
  | nil => rfl
  | cons a rest ih => simp [sleepTotal, ih, List.sum_cons]

theorem sleepTotal_append_relogin (l : List RLEvent) :
    sleepTotal (l ++ [RLEvent.relogin]) = sleepTotal l := by
  induction l with
  | nil => rfl
  | cons a rest ih =>
    cases a with
    | sleep n => simp [sleepTotal, ih]
    | relogin => simp [sleepTotal, ih]

theorem rate_limit_sleeps_sum (delay : Nat) :
    (rate_limit_sleeps delay).sum = delay := by
  unfold rate_limit_sleeps
  by_cases h : 60 < delay
  · rw [if_pos h]
    rw [List.sum_append, List.sum_replicate]
    simp only [smul_eq_mul, List.sum_cons, List.sum_nil]
    omega
  · rw [if_neg h]
    simp

/-- Claim C8 as stated is false: at attempt 2 the 60-second delay is not
chunked (chunking requires `delay > 60`), so the handler performs one single
sleep of 60 seconds, exceeding the claimed 30-second increment cap. -/
theorem C8_counterexample :
    RLEvent.sleep 60 ∈ (enhanced_rate_limit_handler true 2).2 ∧
      ¬ (60 ≤ 30) := by
  decide

/-- Claim C8 (amended): for every attempt `a ≥ 1` the handler sleeps a total
of exactly `30 * 2 ** (a-1)` seconds; the individual sleeps are at most 30
seconds whenever the delay exceeds 60 s (every attempt except attempt 2,
whose whole 60 s delay is a single sleep); from attempt 2 on it refreshes
authentication after the sleeps and before returning; and it returns false
iff that re-authentication fails. -/
theorem C8_backoff (login_ok : Bool) (attempt : Nat) (h1 : 1 ≤ attempt) :
    sleepTotal (enhanced_rate_limit_handler login_ok attempt).2
        = 30 * 2 ^ (attempt - 1) ∧
      (3 ≤ attempt → ∀ n, RLEvent.sleep n ∈
        (enhanced_rate_limit_handler login_ok attempt).2 → n ≤ 30) ∧
      (2 ≤ attempt → (enhanced_rate_limit_handler login_ok attempt).2
        = (rate_limit_sleeps (30 * 2 ^ (attempt - 1))).map RLEvent.sleep
            ++ [RLEvent.relogin]) ∧
      ((enhanced_rate_limit_handler login_ok attempt).1 = false ↔
        (2 ≤ attempt ∧ login_ok = false)) := by
  unfold enhanced_rate_limit_handler
  have htotal : ∀ l : List RLEvent,
      sleepTotal (l ++ [RLEvent.relogin]) = sleepTotal l :=
    sleepTotal_append_relogin
  have hsum : sleepTotal ((rate_limit_sleeps
      (30 * 2 ^ (attempt - 1))).map RLEvent.sleep) = 30 * 2 ^ (attempt - 1) := by
    rw [sleepTotal_map_sleep, rate_limit_sleeps_sum]
  have hchunk : 3 ≤ attempt → ∀ n, RLEvent.sleep n ∈
      ((rate_limit_sleeps (30 * 2 ^ (attempt - 1))).map RLEvent.sleep
        ++ [RLEvent.relogin]) → n ≤ 30 := by
    intro h3 n hmem
    have hd : 60 < 30 * 2 ^ (attempt - 1) := by
      have hp : 2 ^ 2 ≤ 2 ^ (attempt - 1) :=
        Nat.pow_le_pow_right (by omega) (by omega)
      have : (4 : Nat) ≤ 2 ^ (attempt - 1) := by simpa using hp
      omega
    rcases List.mem_append.mp hmem with hmem2 | hmem2
    · obtain ⟨k, hk, hke⟩ := List.mem_map.mp hmem2
      have hkn : k = n := by injection hke
      subst hkn
      unfold rate_limit_sleeps at hk
      rw [if_pos hd] at hk
      rcases List.mem_append.mp hk with hk2 | hk2
      · have := (List.mem_replicate.mp hk2).2
        omega
      · have hk3 : k = 30 * 2 ^ (attempt - 1) % 30 := by
          simpa using hk2
        have : 30 * 2 ^ (attempt - 1) % 30 < 30 := Nat.mod_lt _ (by omega)
        omega
    · simp at hmem2
  by_cases h2 : 2 ≤ attempt
  · rw [if_pos h2]
    refine ⟨?_, fun h3 n hmem => hchunk h3 n hmem, fun _ => rfl, ?_⟩
    · rw [htotal, hsum]
    · cases login_ok <;> simp [h2]
  · rw [if_neg h2]
    have ha1 : attempt = 1 := by omega
    subst ha1
    refine ⟨hsum, by omega, by omega, by simp⟩

/-- Witness for C8: the amended claim at attempt 3 with a failing refresh. -/
theorem C8_backoff_witness :
    1 ≤ 3 ∧
      (sleepTotal (enhanced_rate_limit_handler false 3).2 = 30 * 2 ^ (3 - 1) ∧
        ((enhanced_rate_limit_handler false 3).1 = false ↔
          (2 ≤ 3 ∧ (false : Bool) = false))) :=
  ⟨by decide,
    ⟨(C8_backoff false 3 (by decide)).1, (C8_backoff false 3 (by decide)).2.2.2⟩⟩

/-! ## Filtering unposted existing videos
(`filter_unposted_existing_videos`, lines 1062-1102) -/

/-- One entry of `posted_content['videos']` as the filter reads it: the file
path and the outcome of `datetime.fromisoformat` on its `posted_at` string,
modelled as a Unix timestamp in seconds (`none` when parsing raises, the
inner `except` of lines 1081-1084). -/
structure PostedVideoEntry where
  file : String
  posted_at : Option Int
deriving DecidableEq

/-- The posted-videos structure as loaded from JSON: well-formed, or
malformed in a way that raises while filtering (e.g. an entry that is not a
dict, or a `file` value that `Path` rejects inside the inner handler), which
the outer handler of lines 1099-1102 turns into returning the input
unfiltered. -/
inductive PostedVideosData
  | ok (vids : List PostedVideoEntry)
  | malformed
deriving DecidableEq

/-- Seconds in `timedelta(days=7)`. -/
def sevenDays : Int := 7 * 86400

/-- The name contributed to the recent set by one posted record: its file
name when the record was posted within the last seven days or its timestamp
is unparsable (then treated as recent), nothing otherwise (lines 1072-1084). -/
def recentName (now : Int) (pv : PostedVideoEntry) : Option String :=
  match pv.posted_at with
  | some t => if now - sevenDays < t then some (fileName pv.file) else none
  | none => some (fileName pv.file)

/-- The names of videos posted within the last seven days, an unparsable
timestamp counting as recent (lines 1068-1084; the Python accumulates a set,
modelled as a list queried by membership). -/
def recentPostedNames (now : Int) (vids : List PostedVideoEntry) :
    List String :=
  vids.filterMap (recentName now)

/-- The method `filter_unposted_existing_videos(existing_videos)`: keeps the candidates
whose name is not among the recently posted names; an error while filtering
returns the whole input list (lines 1099-1102). -/
def filter_unposted_existing_videos (now : Int) (posted : PostedVideosData)
    (existing : List String) : List String :=
  match posted with
  | PostedVideosData.malformed => existing
  | PostedVideosData.ok vids =>
    existing.filter
      (fun v => ! (recentPostedNames now vids).elem (fileName v))

theorem recentName_eq_some {now : Int} {pv : PostedVideoEntry}
    {name : String} :
    recentName now pv = some name ↔
      (fileName pv.file = name ∧
        (pv.posted_at = none ∨
          ∃ t, pv.posted_at = some t ∧ now - sevenDays < t)) := by
  unfold recentName
  split
  next t heq =>
    by_cases hc : now - sevenDays < t
    · rw [if_pos hc]
      constructor
      · intro hf
        exact ⟨by injection hf, Or.inr ⟨t, heq, hc⟩⟩
      · rintro ⟨hn, -⟩
        exact congrArg some hn
    · rw [if_neg hc]
      constructor
      · intro hf
        exact absurd hf (by simp)
      · rintro ⟨-, hnone | ⟨t2, ht2, hc2⟩⟩
        · rw [heq] at hnone
          exact absurd hnone (by simp)
        · rw [heq] at ht2
          have : t2 = t := by injection ht2.symm
          subst this
          exact absurd hc2 hc
  next heq =>
    constructor
    · intro hf
      exact ⟨by injection hf, Or.inl heq⟩
    · rintro ⟨hn, -⟩
      exact congrArg some hn

theorem mem_recentPostedNames {now : Int} {vids : List PostedVideoEntry}
    {name : String} :
    name ∈ recentPostedNames now vids ↔
      ∃ pv ∈ vids, fileName pv.file = name ∧
        (pv.posted_at = none ∨
          ∃ t, pv.posted_at = some t ∧ now - sevenDays < t) := by
  unfold recentPostedNames
  rw [List.mem_filterMap]
  constructor
  · rintro ⟨pv, hmem, hf⟩
    exact ⟨pv, hmem, recentName_eq_some.mp hf⟩
  · rintro ⟨pv, hmem, hcond⟩
    exact ⟨pv, hmem, recentName_eq_some.mpr hcond⟩

/-- Claim C7: the filter returns exactly the candidates whose name matches no
posted record that is recent — recent meaning a parsed timestamp within the
last 7 days, or an unparsable timestamp (treated as recent). -/
theorem C7_filter_unposted (now : Int) (vids : List PostedVideoEntry)
    (existing : List String) (v : String) :
    v ∈ filter_unposted_existing_videos now (PostedVideosData.ok vids)
        existing ↔
      (v ∈ existing ∧ ¬ ∃ pv ∈ vids, fileName pv.file = fileName v ∧
        (pv.posted_at = none ∨
          ∃ t, pv.posted_at = some t ∧ now - sevenDays < t)) := by
  unfold filter_unposted_existing_videos
  rw [List.mem_filter]
  constructor
  · rintro ⟨h1, h2⟩
    refine ⟨h1, fun hex => ?_⟩
    have hmem : fileName v ∈ recentPostedNames now vids :=
      mem_recentPostedNames.mpr hex
    rw [← List.elem_iff] at hmem
    rw [hmem] at h2
    simp at h2
  · rintro ⟨h1, h2⟩
    refine ⟨h1, ?_⟩
    have hnot : fileName v ∉ recentPostedNames now vids :=
      fun hmem => h2 (mem_recentPostedNames.mp hmem)
    have : (recentPostedNames now vids).elem (fileName v) = false := by
      by_contra hcon
      have : (recentPostedNames now vids).elem (fileName v) = true := by
        cases h : (recentPostedNames now vids).elem (fileName v)
        · exact absurd h hcon
        · rfl
      exact hnot (List.elem_iff.mp this)
    rw [this]
    rfl

/-- Concrete scenario for C7: now, a record 3 days old, one 10 days old, one
with an unparsable timestamp. -/
def c7Now : Int := 1700000000

/-- Posted records: `a.mp4` 3 days ago, `b.mp4` 10 days ago, `c.mp4` with an
unparsable timestamp. -/
def c7Vids : List PostedVideoEntry :=
  [⟨"downloads/videos/a.mp4", some (c7Now - 3 * 86400)⟩,
    ⟨"downloads/videos/b.mp4", some (c7Now - 10 * 86400)⟩,
    ⟨"downloads/videos/c.mp4", none⟩]

/-- The concrete scenario evaluated: only the 10-day-old file survives the
filter. -/
theorem c7_scenario :
    filter_unposted_existing_videos c7Now (PostedVideosData.ok c7Vids)
      ["a.mp4", "b.mp4", "c.mp4"] = ["b.mp4"] := by
  decide

/-- Claim C10: when filtering raises internally (malformed posted-content
structure), the function returns the entire input candidate list unchanged —
it fails open toward re-posting rather than raising or returning empty. -/
theorem C10_filter_fails_open (now : Int) (existing : List String) :
    filter_unposted_existing_videos now PostedVideosData.malformed existing
      = existing := rfl

end InstaAuto
